import Mathlib

/-!
Verification of the foliofox scenario-planning core.

The development shallowly embeds the TypeScript source:
* `local-date.ts` (calendar values and month arithmetic),
* the event/condition data model and the simulation engine `runScenario`
  (the engine module itself is absent from the source tree; it is modelled
  from the specification, as marked on each such definition),
* `event-analyzer.ts` (`analyzeEventDependencies`),
* `timeline transformer` (`transformToTimelineData`),
* `dividend-generator.ts` (`generateDividendEvents`),
* `getDependentEvents` from `scenario-planning-client.tsx`.

JavaScript numbers are modelled as `ℚ` for currency amounts and as `ℤ` for
calendar fields.  JavaScript strings are modelled as Lean `String`; the
JavaScript string order (code-unit lexicographic) is embedded as `strLtB`.
JavaScript `Map`/object records are modelled as association lists in
insertion order.  Boolean conditions of the source are modelled as
decidable propositions.
-/

/-! ### Calendar (source: `local-date.ts`) -/

/-- Embeds the `LocalDate` record `{ y, m, d }` of `local-date.ts`.
JavaScript numbers holding calendar fields are modelled as integers. -/
structure LocalDate where
  y : Int
  m : Int
  d : Int
deriving DecidableEq, Repr

/-- Embeds `ld` of `local-date.ts`. -/
def ld (y m d : Int) : LocalDate := ⟨y, m, d⟩

/-- Embeds `startOfMonthLD` of `local-date.ts`. -/
def startOfMonthLD (dt : LocalDate) : LocalDate := ld dt.y dt.m 1

/-- Embeds `addMonthsLD` of `local-date.ts`.  JavaScript `%` is the
truncating remainder (`Int.tmod`) and `Math.floor` of an exact division by
12 is flooring division (`Int.fdiv`). -/
def addMonthsLD (dt : LocalDate) (delta : Int) : LocalDate :=
  let total := dt.m - 1 + delta
  let newY := dt.y + Int.fdiv total 12
  let newM := ((Int.tmod total 12 + 12).tmod 12) + 1
  ld newY newM dt.d

/-- Embeds `compareLD` of `local-date.ts` (sign-valued comparison). -/
def compareLD (a b : LocalDate) : Int :=
  if a.y ≠ b.y then a.y - b.y
  else if a.m ≠ b.m then a.m - b.m
  else a.d - b.d

/-- Month index used to reason about month arithmetic: the number of months
since month 1 of year 0. -/
def monthIndex (dt : LocalDate) : Int := dt.y * 12 + (dt.m - 1)

/-! ### JavaScript string model

`toKeyMonth` of `local-date.ts` builds the month key with
`toString().padStart(...)`; the JavaScript built-ins are embedded below and
JavaScript string comparison (used by `Array.prototype.sort` on the month
keys) is embedded as code-unit lexicographic comparison. -/

/-- Decimal digit character for a digit value. -/
def digitChar (n : Nat) : Char := Char.ofNat (48 + n)

/-- Little-endian decimal digits of a natural number (empty for zero). -/
def natDigitsRev (n : Nat) : List Nat :=
  if h : n = 0 then []
  else n % 10 :: natDigitsRev (n / 10)
termination_by n
decreasing_by exact Nat.div_lt_self (Nat.pos_of_ne_zero h) (by norm_num)

/-- Embeds `Number.prototype.toString` (base 10) on natural numbers, as a
character list. -/
def jsNatToString (n : Nat) : List Char :=
  if n = 0 then [digitChar 0] else (natDigitsRev n).reverse.map digitChar

/-- Embeds `Number.prototype.toString` (base 10) on integers. -/
def jsIntToString : Int → List Char
  | Int.ofNat n => jsNatToString n
  | Int.negSucc n => Char.ofNat 45 :: jsNatToString (n + 1)

/-- Embeds `String.prototype.padStart` with a single pad character. -/
def jsPadStart (s : List Char) (w : Nat) (c : Char) : List Char :=
  List.replicate (w - s.length) c ++ s

/-- Embeds `toKeyMonth` of `local-date.ts`:
`y.toString().padStart(4, "0") ++ "-" ++ m.toString().padStart(2, "0")`. -/
def toKeyMonth (dt : LocalDate) : String :=
  String.mk (jsPadStart (jsIntToString dt.y) 4 (digitChar 0) ++
    Char.ofNat 45 :: jsPadStart (jsIntToString dt.m) 2 (digitChar 0))

/-- Embeds the JavaScript `<` comparison on strings (default sort order of
`Array.prototype.sort`): code-unit lexicographic comparison. -/
def strLtChars : List Char → List Char → Bool
  | [], [] => false
  | [], _ :: _ => true
  | _ :: _, [] => false
  | a :: s, b :: t =>
    if a.toNat < b.toNat then true
    else if b.toNat < a.toNat then false
    else strLtChars s t

/-- JavaScript string comparison lifted to the `String` model. -/
def strLtB (a b : String) : Bool := strLtChars a.data b.data

/-- Comparator relation used when sorting month keys ascending: `a` does
not come strictly after `b`. -/
def strLe (a b : String) : Prop := strLtB b a = false

instance (a b : String) : Decidable (strLe a b) := by
  unfold strLe; infer_instance

/-! ### C8: `addMonthsLD` preserves the day and normalizes the month -/

lemma tmod_twelve_lt (t : Int) : Int.tmod t 12 < 12 :=
  Int.tmod_lt_of_pos t (by norm_num)

lemma neg_twelve_lt_tmod (t : Int) : -12 < Int.tmod t 12 := by
  rcases t with m | m
  · have h := Int.tmod_nonneg (a := Int.ofNat m) 12 (Int.ofNat_nonneg m)
    omega
  · show -12 < Int.tmod (Int.negSucc m) 12
    have hdef : Int.tmod (Int.negSucc m) 12 = -((m + 1 : Nat) % 12 : Nat) := rfl
    rw [hdef]
    have := Nat.mod_lt (m + 1) (y := 12) (by norm_num)
    omega

/-- C8: for every `LocalDate` and every integer `n`, `addMonthsLD` returns a
date whose day field equals the input day verbatim (no clamping), and whose
month field lies in `1..12`. -/
theorem addMonthsLD_day_verbatim_month_normalized (dt : LocalDate) (n : Int) :
    (addMonthsLD dt n).d = dt.d ∧
      1 ≤ (addMonthsLD dt n).m ∧ (addMonthsLD dt n).m ≤ 12 := by
  refine ⟨rfl, ?_, ?_⟩ <;>
  · show _ ≤ _
    simp only [addMonthsLD, ld]
    generalize dt.m - 1 + n = t
    have h1 : -12 < Int.tmod t 12 := neg_twelve_lt_tmod t
    have h2 : Int.tmod t 12 < 12 := tmod_twelve_lt t
    have h3 : Int.tmod (Int.tmod t 12 + 12) 12 = (Int.tmod t 12 + 12) % 12 :=
      Int.tmod_eq_emod (by omega) (by norm_num)
    have h4 : 0 ≤ (Int.tmod t 12 + 12) % 12 := Int.emod_nonneg _ (by norm_num)
    have h5 : (Int.tmod t 12 + 12) % 12 < 12 :=
      Int.emod_lt_of_pos _ (by norm_num)
    omega

/-! ### C9: month-key format and lexicographic order agreement -/

lemma natDigitsRev_eq (n : Nat) :
    natDigitsRev n = if n = 0 then [] else n % 10 :: natDigitsRev (n / 10) := by
  rw [natDigitsRev]
  split <;> rfl

lemma digitChar_toNat (k : Nat) (h : k ≤ 9) : (digitChar k).toNat = 48 + k := by
  interval_cases k <;> rfl

lemma jsIntToString_ofNat (n : Nat) : jsIntToString (Int.ofNat n) = jsNatToString n := rfl

lemma pad4_eq (n : Nat) (h : n < 10000) :
    jsPadStart (jsNatToString n) 4 (digitChar 0) =
      [digitChar (n / 1000), digitChar (n / 100 % 10),
       digitChar (n / 10 % 10), digitChar (n % 10)] := by
  rcases Nat.lt_or_ge n 10 with h1 | h1
  · rcases Nat.eq_zero_or_pos n with rfl | hpos
    · rfl
    · have e : natDigitsRev n = [n % 10] := by
        rw [natDigitsRev_eq, if_neg (by omega), natDigitsRev_eq, if_pos (by omega)]
      have e1 : n / 1000 = 0 := by omega
      have e2 : n / 100 % 10 = 0 := by omega
      have e3 : n / 10 % 10 = 0 := by omega
      simp only [jsNatToString, if_neg (by omega : ¬ n = 0), e, jsPadStart, e1, e2, e3]
      rfl
  · rcases Nat.lt_or_ge n 100 with h2 | h2
    · have e : natDigitsRev n = [n % 10, n / 10 % 10] := by
        rw [natDigitsRev_eq, if_neg (by omega), natDigitsRev_eq, if_neg (by omega),
          natDigitsRev_eq, if_pos (by omega)]
      have e1 : n / 1000 = 0 := by omega
      have e2 : n / 100 % 10 = 0 := by omega
      simp only [jsNatToString, if_neg (by omega : ¬ n = 0), e, jsPadStart, e1, e2]
      rfl
    · rcases Nat.lt_or_ge n 1000 with h3 | h3
      · have e : natDigitsRev n = [n % 10, n / 10 % 10, n / 10 / 10 % 10] := by
          rw [natDigitsRev_eq, if_neg (by omega), natDigitsRev_eq, if_neg (by omega),
            natDigitsRev_eq, if_neg (by omega), natDigitsRev_eq, if_pos (by omega)]
        have e1 : n / 1000 = 0 := by omega
        have e2 : n / 100 % 10 = n / 10 / 10 % 10 := by omega
        simp only [jsNatToString, if_neg (by omega : ¬ n = 0), e, jsPadStart, e1, e2]
        rfl
      · have e : natDigitsRev n =
            [n % 10, n / 10 % 10, n / 10 / 10 % 10, n / 10 / 10 / 10 % 10] := by
          rw [natDigitsRev_eq, if_neg (by omega), natDigitsRev_eq, if_neg (by omega),
            natDigitsRev_eq, if_neg (by omega), natDigitsRev_eq, if_neg (by omega),
            natDigitsRev_eq, if_pos (by omega)]
        have e1 : n / 1000 = n / 10 / 10 / 10 % 10 := by omega
        have e2 : n / 100 % 10 = n / 10 / 10 % 10 := by omega
        simp only [jsNatToString, if_neg (by omega : ¬ n = 0), e, jsPadStart, e1, e2]
        rfl

lemma pad2_eq (n : Nat) (h : n < 100) :
    jsPadStart (jsNatToString n) 2 (digitChar 0) =
      [digitChar (n / 10), digitChar (n % 10)] := by
  rcases Nat.lt_or_ge n 10 with h1 | h1
  · rcases Nat.eq_zero_or_pos n with rfl | hpos
    · rfl
    · have e : natDigitsRev n = [n % 10] := by
        rw [natDigitsRev_eq, if_neg (by omega), natDigitsRev_eq, if_pos (by omega)]
      have e1 : n / 10 = 0 := by omega
      simp only [jsNatToString, if_neg (by omega : ¬ n = 0), e, jsPadStart, e1]
      rfl
  · have e : natDigitsRev n = [n % 10, n / 10 % 10] := by
      rw [natDigitsRev_eq, if_neg (by omega), natDigitsRev_eq, if_neg (by omega),
        natDigitsRev_eq, if_pos (by omega)]
    have e1 : n / 10 % 10 = n / 10 := by omega
    simp only [jsNatToString, if_neg (by omega : ¬ n = 0), e, jsPadStart, e1]
    rfl

lemma strLtChars_cons (a b : Char) (s t : List Char) :
    strLtChars (a :: s) (b :: t) =
      if a.toNat < b.toNat then true
      else if b.toNat < a.toNat then false
      else strLtChars s t := rfl

lemma toKeyMonth_data_eq (dt : LocalDate) (hy0 : 0 ≤ dt.y) (hy : dt.y ≤ 9999)
    (hm1 : 1 ≤ dt.m) (hm : dt.m ≤ 12) :
    (toKeyMonth dt).data =
      [digitChar (dt.y.toNat / 1000), digitChar (dt.y.toNat / 100 % 10),
       digitChar (dt.y.toNat / 10 % 10), digitChar (dt.y.toNat % 10),
       Char.ofNat 45, digitChar (dt.m.toNat / 10), digitChar (dt.m.toNat % 10)] := by
  have ey : dt.y = Int.ofNat dt.y.toNat := (Int.toNat_of_nonneg hy0).symm
  have em : dt.m = Int.ofNat dt.m.toNat := (Int.toNat_of_nonneg (by omega)).symm
  have hy4 : dt.y.toNat < 10000 := by omega
  have hm2 : dt.m.toNat < 100 := by omega
  show (jsPadStart (jsIntToString dt.y) 4 (digitChar 0) ++
      Char.ofNat 45 :: jsPadStart (jsIntToString dt.m) 2 (digitChar 0)) = _
  rw [ey, em, jsIntToString_ofNat, jsIntToString_ofNat, pad4_eq _ hy4, pad2_eq _ hm2]
  rfl

/-- C9: for dates with year in `0..9999` and month in `1..12`, `toKeyMonth`
produces the 7-character string whose first four characters are the
zero-padded decimal year and whose last two are the zero-padded decimal
month, and the JavaScript lexicographic string comparison of two such month
keys agrees with chronological comparison of the `(year, month)` pairs. -/
theorem toKeyMonth_format_and_lex_order (d1 d2 : LocalDate)
    (hy0 : 0 ≤ d1.y) (hy : d1.y ≤ 9999) (hm1 : 1 ≤ d1.m) (hm : d1.m ≤ 12)
    (gy0 : 0 ≤ d2.y) (gy : d2.y ≤ 9999) (gm1 : 1 ≤ d2.m) (gm : d2.m ≤ 12) :
    ((toKeyMonth d1).data =
      [digitChar (d1.y.toNat / 1000), digitChar (d1.y.toNat / 100 % 10),
       digitChar (d1.y.toNat / 10 % 10), digitChar (d1.y.toNat % 10),
       Char.ofNat 45, digitChar (d1.m.toNat / 10), digitChar (d1.m.toNat % 10)]) ∧
    (strLtB (toKeyMonth d1) (toKeyMonth d2) = true ↔
      (d1.y < d2.y ∨ (d1.y = d2.y ∧ d1.m < d2.m))) := by
  refine ⟨toKeyMonth_data_eq d1 hy0 hy hm1 hm, ?_⟩
  have k1 := toKeyMonth_data_eq d1 hy0 hy hm1 hm
  have k2 := toKeyMonth_data_eq d2 gy0 gy gm1 gm
  unfold strLtB
  rw [k1, k2]
  have b1 : d1.y.toNat / 1000 ≤ 9 := by omega
  have b2 : d1.y.toNat / 100 % 10 ≤ 9 := by omega
  have b3 : d1.y.toNat / 10 % 10 ≤ 9 := by omega
  have b4 : d1.y.toNat % 10 ≤ 9 := by omega
  have b5 : d1.m.toNat / 10 ≤ 9 := by omega
  have b6 : d1.m.toNat % 10 ≤ 9 := by omega
  have c1 : d2.y.toNat / 1000 ≤ 9 := by omega
  have c2 : d2.y.toNat / 100 % 10 ≤ 9 := by omega
  have c3 : d2.y.toNat / 10 % 10 ≤ 9 := by omega
  have c4 : d2.y.toNat % 10 ≤ 9 := by omega
  have c5 : d2.m.toNat / 10 ≤ 9 := by omega
  have c6 : d2.m.toNat % 10 ≤ 9 := by omega
  rw [strLtChars_cons, digitChar_toNat _ b1, digitChar_toNat _ c1,
    strLtChars_cons, digitChar_toNat _ b2, digitChar_toNat _ c2,
    strLtChars_cons, digitChar_toNat _ b3, digitChar_toNat _ c3,
    strLtChars_cons, digitChar_toNat _ b4, digitChar_toNat _ c4,
    strLtChars_cons, strLtChars_cons, digitChar_toNat _ b5, digitChar_toNat _ c5,
    strLtChars_cons, digitChar_toNat _ b6, digitChar_toNat _ c6]
  have hr : (d1.y < d2.y ∨ (d1.y = d2.y ∧ d1.m < d2.m)) ↔
      (d1.y.toNat < d2.y.toNat ∨
        (d1.y.toNat = d2.y.toNat ∧ d1.m.toNat < d2.m.toNat)) := by omega
  rw [hr]
  have hy4 : d1.y.toNat < 10000 := by omega
  have gy4 : d2.y.toNat < 10000 := by omega
  have hm2 : d1.m.toNat < 100 := by omega
  have gm2 : d2.m.toNat < 100 := by omega
  rcases Nat.lt_trichotomy (d1.y.toNat / 1000) (d2.y.toNat / 1000) with h1 | h1 | h1
  · rw [if_pos (by omega)]
    simp only [true_iff]
    omega
  · rw [if_neg (by omega), if_neg (by omega)]
    rcases Nat.lt_trichotomy (d1.y.toNat / 100 % 10) (d2.y.toNat / 100 % 10) with h2 | h2 | h2
    · rw [if_pos (by omega)]
      simp only [true_iff]
      omega
    · rw [if_neg (by omega), if_neg (by omega)]
      rcases Nat.lt_trichotomy (d1.y.toNat / 10 % 10) (d2.y.toNat / 10 % 10) with h3 | h3 | h3
      · rw [if_pos (by omega)]
        simp only [true_iff]
        omega
      · rw [if_neg (by omega), if_neg (by omega)]
        rcases Nat.lt_trichotomy (d1.y.toNat % 10) (d2.y.toNat % 10) with h4 | h4 | h4
        · rw [if_pos (by omega)]
          simp only [true_iff]
          omega
        · rw [if_neg (by omega), if_neg (by omega),
            if_neg (lt_irrefl (Char.ofNat 45).toNat), if_neg (lt_irrefl (Char.ofNat 45).toNat)]
          rcases Nat.lt_trichotomy (d1.m.toNat / 10) (d2.m.toNat / 10) with h5 | h5 | h5
          · rw [if_pos (by omega)]
            simp only [true_iff]
            omega
          · rw [if_neg (by omega), if_neg (by omega)]
            rcases Nat.lt_trichotomy (d1.m.toNat % 10) (d2.m.toNat % 10) with h6 | h6 | h6
            · rw [if_pos (by omega)]
              simp only [true_iff]
              omega
            · rw [if_neg (by omega), if_neg (by omega)]
              show (strLtChars [] [] = true) ↔ _
              simp only [show strLtChars [] [] = false from rfl,
                Bool.false_eq_true, false_iff]
              omega
            · rw [if_neg (by omega), if_pos (by omega)]
              simp only [Bool.false_eq_true, false_iff]
              omega
          · rw [if_neg (by omega), if_pos (by omega)]
            simp only [Bool.false_eq_true, false_iff]
            omega
        · rw [if_neg (by omega), if_pos (by omega)]
          simp only [Bool.false_eq_true, false_iff]
          omega
      · rw [if_neg (by omega), if_pos (by omega)]
        simp only [Bool.false_eq_true, false_iff]
        omega
    · rw [if_neg (by omega), if_pos (by omega)]
      simp only [Bool.false_eq_true, false_iff]
      omega
  · rw [if_neg (by omega), if_pos (by omega)]
    simp only [Bool.false_eq_true, false_iff]
    omega

/-- Witness for C9 at the concrete dates 2025-01-01 and 2025-12-01. -/
theorem toKeyMonth_format_and_lex_order_witness :
    (0 ≤ (ld 2025 1 1).y ∧ (ld 2025 1 1).y ≤ 9999 ∧
      1 ≤ (ld 2025 1 1).m ∧ (ld 2025 1 1).m ≤ 12 ∧
      0 ≤ (ld 2025 12 1).y ∧ (ld 2025 12 1).y ≤ 9999 ∧
      1 ≤ (ld 2025 12 1).m ∧ (ld 2025 12 1).m ≤ 12) ∧
    (((toKeyMonth (ld 2025 1 1)).data =
      [digitChar ((ld 2025 1 1).y.toNat / 1000),
       digitChar ((ld 2025 1 1).y.toNat / 100 % 10),
       digitChar ((ld 2025 1 1).y.toNat / 10 % 10),
       digitChar ((ld 2025 1 1).y.toNat % 10),
       Char.ofNat 45, digitChar ((ld 2025 1 1).m.toNat / 10),
       digitChar ((ld 2025 1 1).m.toNat % 10)]) ∧
     (strLtB (toKeyMonth (ld 2025 1 1)) (toKeyMonth (ld 2025 12 1)) = true ↔
       ((ld 2025 1 1).y < (ld 2025 12 1).y ∨
        ((ld 2025 1 1).y = (ld 2025 12 1).y ∧
          (ld 2025 1 1).m < (ld 2025 12 1).m)))) :=
  ⟨by decide,
   toKeyMonth_format_and_lex_order (ld 2025 1 1) (ld 2025 12 1)
     (by decide) (by decide) (by decide) (by decide)
     (by decide) (by decide) (by decide) (by decide)⟩

/-! ### Event and condition model

The engine module `lib/scenario-planning/index.ts` is not present in the
source tree; only its test, its type declarations echoed in
`event-analyzer.ts`, and its callers are.  The data model below follows the
condition union literally declared in `event-analyzer.ts` and the
specification section 3. -/

/-- Modelled from the spec: the `"income" | "expense"` discriminator of
`ScenarioEvent` (declared in the missing engine module). -/
inductive EventType where
  | income
  | expense
deriving DecidableEq, Repr

/-- Embeds the tagged condition union declared in `event-analyzer.ts`:
cashflow-tagged `date-is` and `date-in-range`, and balance-tagged
`networth-is-above` (payload `eventRef`, `amount`), `event-happened`
(payload `eventName`) and `income-is-above` (payload `eventName`,
`amount`). -/
inductive Condition where
  | dateIs (date : LocalDate)
  | dateInRange (startDate endDate : LocalDate)
  | networthIsAbove (eventRef : String) (amount : ℚ)
  | eventHappened (eventName : String)
  | incomeIsAbove (eventName : String) (amount : ℚ)
deriving DecidableEq, Repr

/-- The `tag === "balance"` discriminator test on a condition. -/
def Condition.isBalanceTag : Condition → Bool
  | .dateIs _ => false
  | .dateInRange _ _ => false
  | _ => true

/-- The `type === "event-happened"` test on a condition. -/
def Condition.isEventHappened : Condition → Bool
  | .eventHappened _ => true
  | _ => false

/-- The referenced event name of an `event-happened` condition (used by the
analyzer as the trigger-event name), empty for other variants. -/
def Condition.happenedRef : Condition → String
  | .eventHappened n => n
  | _ => ""

/-- Modelled from the spec: the recurrence variants `once`, `monthly`,
`yearly` of the missing engine module (specification section 3), plus an
`always` variant for events constructed with no recurrence restriction
(the test file's `makeEvent` builds such events and the reference run shows
them active in every month of the range). -/
inductive Recurrence where
  | once (date : LocalDate)
  | monthly (startDate : LocalDate) (endDate : Option LocalDate)
  | yearly (startDate : LocalDate) (endDate : Option LocalDate)
  | always
deriving DecidableEq, Repr

/-- Modelled from the spec: `ScenarioEvent` of the missing engine module
(specification section 3): name, type, non-negative amount magnitude,
recurrence, ordered condition list. -/
structure ScenarioEvent where
  name : String
  type : EventType
  amount : ℚ
  recurrence : Recurrence
  unlockedBy : List Condition
deriving DecidableEq, Repr

/-- Modelled from the spec: `Scenario` of the missing engine module. -/
structure Scenario where
  name : String
  events : List ScenarioEvent
deriving DecidableEq, Repr

/-- The `"monthly" | "yearly"` frequency discriminator of `makeRecurring`. -/
inductive Frequency where
  | monthly
  | yearly
deriving DecidableEq, Repr

/-- Modelled from the spec: the `makeRecurring` factory of the missing
engine module (monthly or yearly recurrence from start and optional end
date). -/
def makeRecurring (name : String) (amount : ℚ) (type : EventType)
    (frequency : Frequency) (startDate : LocalDate)
    (endDate : Option LocalDate)
    (unlockedBy : List Condition := []) : ScenarioEvent :=
  { name := name, type := type, amount := amount,
    recurrence := match frequency with
      | .monthly => Recurrence.monthly startDate endDate
      | .yearly => Recurrence.yearly startDate endDate,
    unlockedBy := unlockedBy }

/-- Modelled from the spec: the `makeOneOff` factory of the missing engine
module (`once` recurrence at the given date). -/
def makeOneOff (name : String) (amount : ℚ) (type : EventType)
    (date : LocalDate) (unlockedBy : List Condition := []) : ScenarioEvent :=
  { name := name, type := type, amount := amount,
    recurrence := Recurrence.once date, unlockedBy := unlockedBy }

/-- Modelled from the spec: the `makeEvent` factory of the missing engine
module as exercised by the test file (no recurrence restriction). -/
def makeEvent (name : String) (amount : ℚ) (type : EventType)
    (unlockedBy : List Condition := []) : ScenarioEvent :=
  { name := name, type := type, amount := amount,
    recurrence := Recurrence.always, unlockedBy := unlockedBy }

/-- Modelled from the spec: the `makeScenario` factory of the missing
engine module. -/
def makeScenario (name : String) (events : List ScenarioEvent) : Scenario :=
  { name := name, events := events }

/-- Modelled from the spec: `isEventActiveInMonth` of the missing engine
module (specification sections 3 and 4.2): `once` is active exactly in the
calendar month of its date; `monthly` from its start month through its end
month inclusive (open-ended when absent); `yearly` additionally only in
months whose month number matches the start month. -/
def recurrenceActive (current : LocalDate) : Recurrence → Prop
  | .once d => d.y = current.y ∧ d.m = current.m
  | .monthly s none => monthIndex s ≤ monthIndex current
  | .monthly s (some en) =>
      monthIndex s ≤ monthIndex current ∧ monthIndex current ≤ monthIndex en
  | .yearly s none => monthIndex s ≤ monthIndex current ∧ s.m = current.m
  | .yearly s (some en) =>
      monthIndex s ≤ monthIndex current ∧ monthIndex current ≤ monthIndex en ∧
        s.m = current.m
  | .always => True

instance recurrenceActiveDec (current : LocalDate) :
    (r : Recurrence) → Decidable (recurrenceActive current r)
  | .once d =>
      inferInstanceAs (Decidable (d.y = current.y ∧ d.m = current.m))
  | .monthly s none =>
      inferInstanceAs (Decidable (monthIndex s ≤ monthIndex current))
  | .monthly s (some en) =>
      inferInstanceAs (Decidable (monthIndex s ≤ monthIndex current ∧
        monthIndex current ≤ monthIndex en))
  | .yearly s none =>
      inferInstanceAs (Decidable (monthIndex s ≤ monthIndex current ∧
        s.m = current.m))
  | .yearly s (some en) =>
      inferInstanceAs (Decidable (monthIndex s ≤ monthIndex current ∧
        monthIndex current ≤ monthIndex en ∧ s.m = current.m))
  | .always => inferInstanceAs (Decidable True)

def isEventActiveInMonth (current : LocalDate) (e : ScenarioEvent) : Prop :=
  recurrenceActive current e.recurrence

instance (current : LocalDate) (e : ScenarioEvent) :
    Decidable (isEventActiveInMonth current e) :=
  inferInstanceAs (Decidable (recurrenceActive current e.recurrence))

/-- Modelled from the spec: evaluation of one unlock condition for the
current month (specification sections 3 and 4.3).  Balance-dependent
conditions observe only state finalized through the end of the previous
month: `networth-is-above` reads the previous-month-end balance,
`event-happened` the set of names fired in strictly earlier months;
`income-is-above` inspects the current month's candidate firing of the
referenced event (its recurrence-activity and magnitude this month). -/
def condSatisfied (events : List ScenarioEvent) (current : LocalDate)
    (prevBalance : ℚ) (history : List String) : Condition → Prop
  | .dateIs d => d.y = current.y ∧ d.m = current.m
  | .dateInRange s e =>
      monthIndex s ≤ monthIndex current ∧ monthIndex current ≤ monthIndex e
  | .networthIsAbove _ amt => amt ≤ prevBalance
  | .eventHappened n => n ∈ history
  | .incomeIsAbove n amt =>
      ∃ ev ∈ events, ev.name = n ∧ isEventActiveInMonth current ev ∧
        amt ≤ ev.amount

instance condSatisfiedDec (events : List ScenarioEvent) (current : LocalDate)
    (prevBalance : ℚ) (history : List String) :
    (c : Condition) → Decidable (condSatisfied events current prevBalance history c)
  | .dateIs d => inferInstanceAs (Decidable (d.y = current.y ∧ d.m = current.m))
  | .dateInRange s e =>
      inferInstanceAs (Decidable (monthIndex s ≤ monthIndex current ∧
        monthIndex current ≤ monthIndex e))
  | .networthIsAbove _ amt => inferInstanceAs (Decidable (amt ≤ prevBalance))
  | .eventHappened n => inferInstanceAs (Decidable (n ∈ history))
  | .incomeIsAbove n amt =>
      inferInstanceAs (Decidable (∃ ev ∈ events, ev.name = n ∧
        isEventActiveInMonth current ev ∧ amt ≤ ev.amount))

/-- Signed amount contributed by a fired event: `+amount` for income,
`-amount` for expense (specification section 4.3 step 3). -/
def signedAmount (e : ScenarioEvent) : ℚ :=
  match e.type with
  | .income => e.amount
  | .expense => -e.amount

/-- Modelled from the spec: the events of the scenario that fire in the
current month — recurrence-active and with every unlock condition
satisfied — in scenario order (specification section 4.3 steps 1-3). -/
def firedInMonth (all : List ScenarioEvent) (current : LocalDate)
    (prevBalance : ℚ) (history : List String) :
    List ScenarioEvent → List ScenarioEvent
  | [] => []
  | e :: rest =>
    if isEventActiveInMonth current e ∧
        ∀ c ∈ e.unlockedBy, condSatisfied all current prevBalance history c then
      e :: firedInMonth all current prevBalance history rest
    else firedInMonth all current prevBalance history rest

/-- One month of the simulation result: the month, its `"YYYY-MM"` key, the
net cashflow `amount`, the fired events, and the end-of-month running
balance. -/
structure MonthRecord where
  month : LocalDate
  monthKey : String
  amount : ℚ
  events : List ScenarioEvent
  balance : ℚ
deriving DecidableEq, Repr

/-- Modelled from the spec: the sequential month fold of `runScenario`
(specification section 4.3 steps 1-6, simple balance variant): each month
sums the signed amounts of its fired events, adds them to the running
balance, and appends the fired names to the firing history used by later
months. -/
def runMonths (all : List ScenarioEvent) :
    List LocalDate → ℚ → List String → List MonthRecord
  | [], _, _ => []
  | mth :: rest, bal, hist =>
    let fired := firedInMonth all mth bal hist all
    let net := (fired.map signedAmount).sum
    { month := mth, monthKey := toKeyMonth mth, amount := net,
      events := fired, balance := bal + net } ::
      runMonths all rest (bal + net) (hist ++ fired.map (fun e => e.name))

/-- Modelled from the spec: the inclusive month range from the start
month of `startDate` through the month of `endDate` (empty when
`startDate` is after `endDate`, specification section 4.3 edge cases). -/
def monthsRange (s e : LocalDate) : List LocalDate :=
  if monthIndex s ≤ monthIndex e then
    (List.range ((monthIndex e - monthIndex s).toNat + 1)).map
      (fun i => addMonthsLD (startOfMonthLD s) (Int.ofNat i))
  else []

/-- Modelled from the spec: `runScenario` of the missing engine module
(simple balance variant, no portfolio tracking): the chronological list of
month records over the inclusive range. -/
def runScenario (sc : Scenario) (startDate endDate : LocalDate)
    (initialBalance : ℚ) : List MonthRecord :=
  runMonths sc.events (monthsRange startDate endDate) initialBalance []

/-! ### C1: the balance time series is the running sum of net cashflows -/

lemma runMonths_head_balance (all : List ScenarioEvent) (ms : List LocalDate)
    (bal : ℚ) (hist : List String) :
    (runMonths all ms bal hist).head?.elim True
      (fun hd => hd.balance = bal + hd.amount) := by
  cases ms <;> simp [runMonths]

lemma runMonths_chain (all : List ScenarioEvent) (ms : List LocalDate) :
    ∀ (bal : ℚ) (hist : List String),
      List.Chain' (fun a b => b.balance = a.balance + b.amount)
        (runMonths all ms bal hist) := by
  induction ms with
  | nil => intro bal hist; simp [runMonths]
  | cons mth rest ih =>
    intro bal hist
    rw [runMonths]
    rw [List.chain'_cons']
    refine ⟨?_, ih _ _⟩
    intro hd hmem
    have h := runMonths_head_balance all rest
      (bal + (List.map signedAmount (firedInMonth all mth bal hist all)).sum)
      (hist ++ List.map (fun e => e.name) (firedInMonth all mth bal hist all))
    rw [hmem] at h
    simpa using h

/-- C1: for every scenario run, the head month's balance is the initial
balance plus the head month's net amount, and every pair of consecutive
months of the result satisfies `balance = previous balance + net amount`
(specification section 8, first testable property). -/
theorem runScenario_balance_recurrence (sc : Scenario) (s e : LocalDate)
    (init : ℚ) :
    ((runScenario sc s e init).head?.elim True
      (fun hd => hd.balance = init + hd.amount)) ∧
    List.Chain' (fun a b => b.balance = a.balance + b.amount)
      (runScenario sc s e init) :=
  ⟨runMonths_head_balance sc.events (monthsRange s e) init [],
   runMonths_chain sc.events (monthsRange s e) init []⟩

/-! ### C2: the networth gate reads the previous month's closing balance -/

/-- The monthly 2000 income starting 2025-01 of specification scenario C. -/
def c2Salary : ScenarioEvent :=
  makeRecurring "Salary" 2000 EventType.income Frequency.monthly
    (ld 2025 1 1) none

/-- The 4000 expense gated by `networth-is-above(6000)` of specification
scenario C. -/
def c2Holidays : ScenarioEvent :=
  makeEvent "Holidays" 4000 EventType.expense
    [Condition.networthIsAbove "Salary" 6000]

/-- Specification scenario C. -/
def c2Scenario : Scenario := makeScenario "Scenario C" [c2Salary, c2Holidays]

/-- C2: running scenario C over 2025-01-01..2025-05-01 with initial balance
0 yields the month-end balances 2000, 4000, 6000, 4000, 6000; the gated
expense fires exactly in month 4; and month by month the gated expense
fires precisely when the previous month's closing balance (initially the
initial balance 0) reaches or exceeds 6000. -/
theorem c2_networth_gate_previous_month :
    ((runScenario c2Scenario (ld 2025 1 1) (ld 2025 5 1) 0).map
      (fun en => en.balance) = [2000, 4000, 6000, 4000, 6000]) ∧
    ((runScenario c2Scenario (ld 2025 1 1) (ld 2025 5 1) 0).map
      (fun en => en.events.map (fun ev => ev.name)) =
        [["Salary"], ["Salary"], ["Salary"], ["Salary", "Holidays"],
         ["Salary"]]) ∧
    List.Forall₂
      (fun b en => ((∃ ev ∈ en.events, ev.name = "Holidays") ↔ 6000 ≤ b))
      (0 :: ((runScenario c2Scenario (ld 2025 1 1) (ld 2025 5 1) 0).map
        (fun en => en.balance)).dropLast)
      (runScenario c2Scenario (ld 2025 1 1) (ld 2025 5 1) 0) := by
  have hm : monthsRange (ld 2025 1 1) (ld 2025 5 1) =
      [ld 2025 1 1, ld 2025 2 1, ld 2025 3 1, ld 2025 4 1, ld 2025 5 1] := by
    decide
  simp only [c2Scenario, c2Salary, c2Holidays, makeScenario, makeEvent,
    makeRecurring, runScenario]
  rw [hm]
  simp only [runMonths]
  norm_num [firedInMonth, isEventActiveInMonth, recurrenceActive,
    condSatisfied, monthIndex, signedAmount, ld, List.forall_mem_cons,
    List.forall₂_cons]
  decide

/-! ### Dependency analyzer (source: `event-analyzer.ts`) -/

/-- Embeds the per-month cashflow record `{ amount, events }` of the
analyzer's `ScenarioResult` input. -/
structure CashflowData where
  amount : ℚ
  events : List ScenarioEvent
deriving DecidableEq, Repr

/-- Embeds the analyzer's `ScenarioResult` input: the `balance` and
`cashflow` records keyed by month key, modelled as association lists in
object insertion order. -/
structure ScenarioResult where
  balance : List (String × ℚ)
  cashflow : List (String × CashflowData)
deriving DecidableEq, Repr

/-- Embeds the `conditionalEvents` entries of `EventDependencyAnalysis`. -/
structure ConditionalEntry where
  event : ScenarioEvent
  conditions : List String
deriving DecidableEq, Repr

/-- Embeds the `triggeredEvents` entries of `EventDependencyAnalysis`. -/
structure TriggeredEntry where
  event : ScenarioEvent
  triggerEvent : String
  firedAt : Option String
deriving DecidableEq, Repr

/-- Embeds the `startingEvents` entries of an event-flow month. -/
structure FlowStarting where
  event : ScenarioEvent
  amount : ℚ
deriving DecidableEq, Repr

/-- Embeds the `triggeredBy` entries of an event-flow month. -/
structure FlowTriggered where
  event : ScenarioEvent
  triggerEvent : String
deriving DecidableEq, Repr

/-- Embeds one month of the analyzer's `eventFlow`. -/
structure FlowEntry where
  monthKey : String
  startingEvents : List FlowStarting
  triggeredBy : List FlowTriggered
deriving DecidableEq, Repr

/-- Embeds `EventDependencyAnalysis` of `event-analyzer.ts`. -/
structure EventDependencyAnalysis where
  independentEvents : List ScenarioEvent
  conditionalEvents : List ConditionalEntry
  triggeredEvents : List TriggeredEntry
  eventFlow : List FlowEntry
deriving DecidableEq, Repr

/-- Rendering of a currency amount in a condition description; the source
uses locale formatting (`toLocaleString`), abstracted here as the `Repr`
rendering of the rational (the claims do not depend on the digits). -/
def qRender (q : ℚ) : String := reprStr q

/-- Embeds `conditionToString` of `event-analyzer.ts`: cashflow-tagged date
conditions render to the empty string, balance-tagged conditions to a
non-empty human-readable description. -/
def conditionToString : Condition → String
  | .dateIs _ => ""
  | .dateInRange _ _ => ""
  | .networthIsAbove _ amt => "When net worth > $" ++ qRender amt
  | .eventHappened n => "After " ++ n ++ " happens"
  | .incomeIsAbove n amt => "When " ++ n ++ " >= $" ++ qRender amt

/-- Embeds the `firedAt` linear scan of `analyzeEventDependencies`: the
first month key of the cashflow record (in insertion order) whose fired
list contains an event with the given name. -/
def firedAtScan (cashflow : List (String × CashflowData)) (nm : String) :
    Option String :=
  (cashflow.find? (fun kv => kv.2.events.any (fun ev => ev.name == nm))).map
    (fun kv => kv.1)

/-- Embeds the classification loop of `analyzeEventDependencies`: an event
with no balance-tagged condition is independent; otherwise it is triggered
when a balance-tagged `event-happened` condition exists (recording that
condition's event name and the first observed firing month), and
conditional otherwise (recording the rendered non-empty descriptions). -/
def classifyEvents (result : ScenarioResult) :
    List ScenarioEvent →
      List ScenarioEvent × List ConditionalEntry × List TriggeredEntry
  | [] => ([], [], [])
  | e :: rest =>
    let prev := classifyEvents result rest
    let balanceConds := e.unlockedBy.filter Condition.isBalanceTag
    if balanceConds.isEmpty then (e :: prev.1, prev.2.1, prev.2.2)
    else
      match balanceConds.find? Condition.isEventHappened with
      | some c =>
          (prev.1, prev.2.1,
            { event := e, triggerEvent := c.happenedRef,
              firedAt := firedAtScan result.cashflow e.name } :: prev.2.2)
      | none =>
          (prev.1,
            { event := e,
              conditions := (balanceConds.map conditionToString).filter
                (fun s2 => !(s2 == "")) } :: prev.2.1,
            prev.2.2)

/-- Record lookup on the cashflow association list (first entry wins, as
for a JavaScript object). -/
def lookupCashflow (cashflow : List (String × CashflowData)) (k : String) :
    Option CashflowData :=
  (cashflow.find? (fun kv => kv.1 == k)).map (fun kv => kv.2)

/-- Embeds the per-month partition of fired events in the event-flow loop:
events found in the triggered list go to `triggeredBy` with their recorded
trigger name, the others to `startingEvents` with their signed amount. -/
def partitionFired (trig : List TriggeredEntry) :
    List ScenarioEvent → List FlowStarting × List FlowTriggered
  | [] => ([], [])
  | ev :: rest =>
    let prev := partitionFired trig rest
    match trig.find? (fun t => t.event.name == ev.name) with
    | some t =>
        (prev.1, { event := ev, triggerEvent := t.triggerEvent } :: prev.2)
    | none => ({ event := ev, amount := signedAmount ev } :: prev.1, prev.2)

/-- Embeds the event-flow loop of `analyzeEventDependencies` over the
sorted month keys: months with an empty fired list are skipped, the rest
contribute one entry with the partitioned fired events. -/
def buildEventFlow (trig : List TriggeredEntry) (result : ScenarioResult) :
    List String → List FlowEntry
  | [] => []
  | mk :: rest =>
    match lookupCashflow result.cashflow mk with
    | none => buildEventFlow trig result rest
    | some data =>
      if data.events.isEmpty then buildEventFlow trig result rest
      else
        let parts := partitionFired trig data.events
        if parts.1.length > 0 ∨ parts.2.length > 0 then
          { monthKey := mk, startingEvents := parts.1,
            triggeredBy := parts.2 } :: buildEventFlow trig result rest
        else buildEventFlow trig result rest

/-- Embeds `Object.keys(result.cashflow).sort()`: the month keys in
ascending JavaScript string order. -/
def sortKeys (cashflow : List (String × CashflowData)) : List String :=
  List.insertionSort strLe (cashflow.map (fun kv => kv.1))

/-- Embeds `analyzeEventDependencies` of `event-analyzer.ts`. -/
def analyzeEventDependencies (sc : Scenario) (result : ScenarioResult) :
    EventDependencyAnalysis :=
  let parts := classifyEvents result sc.events
  { independentEvents := parts.1, conditionalEvents := parts.2.1,
    triggeredEvents := parts.2.2,
    eventFlow := buildEventFlow parts.2.2 result (sortKeys result.cashflow) }

/-! ### C3: the classification is a partition by condition shape -/

/-- Test: the event has at least one balance-tagged condition. -/
def hasBalanceCond (e : ScenarioEvent) : Bool :=
  !(e.unlockedBy.filter Condition.isBalanceTag).isEmpty

/-- Test: some balance-tagged condition of the event is `event-happened`. -/
def hasTriggerCond (e : ScenarioEvent) : Bool :=
  (e.unlockedBy.filter Condition.isBalanceTag).any Condition.isEventHappened

lemma classifyEvents_spec (result : ScenarioResult)
    (events : List ScenarioEvent) :
    (classifyEvents result events).1 =
      events.filter (fun e => !(hasBalanceCond e)) ∧
    (classifyEvents result events).2.2.map (fun t => t.event) =
      events.filter (fun e => hasBalanceCond e && hasTriggerCond e) ∧
    (classifyEvents result events).2.1.map (fun t => t.event) =
      events.filter (fun e => hasBalanceCond e && !(hasTriggerCond e)) := by
  induction events with
  | nil => exact ⟨rfl, rfl, rfl⟩
  | cons e rest ih =>
    obtain ⟨ih1, ih2, ih3⟩ := ih
    simp only [classifyEvents]
    cases hbe : (e.unlockedBy.filter Condition.isBalanceTag).isEmpty with
    | true =>
      have hb : hasBalanceCond e = false := by
        simp [hasBalanceCond, hbe]
      simp [hbe, List.filter_cons, hb, ih1, ih2, ih3]
    | false =>
      have hb : hasBalanceCond e = true := by
        simp [hasBalanceCond, hbe]
      cases hf : (e.unlockedBy.filter Condition.isBalanceTag).find?
          Condition.isEventHappened with
      | some c =>
        have ht : hasTriggerCond e = true := by
          have hpc := List.find?_some hf
          have hmem := List.mem_of_find?_eq_some hf
          simp only [hasTriggerCond, List.any_eq_true]
          exact ⟨c, hmem, hpc⟩
        simp [hbe, hf, List.filter_cons, hb, ht, ih1, ih2, ih3]
      | none =>
        have ht : hasTriggerCond e = false := by
          rw [List.find?_eq_none] at hf
          simp only [hasTriggerCond]
          rw [List.any_eq_false]
          intro x hx
          simp [hf x hx]
        simp [hbe, hf, List.filter_cons, hb, ht, ih1, ih2, ih3]

/-- C3: `analyzeEventDependencies` classifies every event of the scenario
into exactly one of the three lists: independent exactly when it has no
balance-tagged condition; among the others, triggered exactly when some
balance-tagged condition is `event-happened`, conditional otherwise; the
three lists together cover the event list (lengths sum to the number of
events). -/
theorem analyzeEventDependencies_partition (sc : Scenario)
    (result : ScenarioResult) :
    ((analyzeEventDependencies sc result).independentEvents =
      sc.events.filter (fun e => !(hasBalanceCond e))) ∧
    ((analyzeEventDependencies sc result).triggeredEvents.map
        (fun t => t.event) =
      sc.events.filter (fun e => hasBalanceCond e && hasTriggerCond e)) ∧
    ((analyzeEventDependencies sc result).conditionalEvents.map
        (fun t => t.event) =
      sc.events.filter (fun e => hasBalanceCond e && !(hasTriggerCond e))) ∧
    ((analyzeEventDependencies sc result).independentEvents.length +
      (analyzeEventDependencies sc result).triggeredEvents.length +
      (analyzeEventDependencies sc result).conditionalEvents.length =
      sc.events.length) := by
  obtain ⟨h1, h2, h3⟩ := classifyEvents_spec result sc.events
  refine ⟨h1, h2, h3, ?_⟩
  show (classifyEvents result sc.events).1.length +
    (classifyEvents result sc.events).2.2.length +
    (classifyEvents result sc.events).2.1.length = _
  have l2 : (classifyEvents result sc.events).2.2.length =
      (sc.events.filter (fun e => hasBalanceCond e && hasTriggerCond e)).length := by
    rw [← h2, List.length_map]
  have l3 : (classifyEvents result sc.events).2.1.length =
      (sc.events.filter
        (fun e => hasBalanceCond e && !(hasTriggerCond e))).length := by
    rw [← h3, List.length_map]
  rw [h1, l2, l3]
  induction sc.events with
  | nil => rfl
  | cons e rest ih =>
    by_cases hb : hasBalanceCond e = true <;>
      by_cases ht : hasTriggerCond e = true <;>
        simp [List.filter_cons, hb, ht] <;> omega

/-! ### C4: the event flow is the sorted non-empty months, partitioned -/

lemma strLtChars_irrefl (l : List Char) : strLtChars l l = false := by
  induction l with
  | nil => rfl
  | cons a s ih => rw [strLtChars_cons, if_neg (lt_irrefl _), if_neg (lt_irrefl _), ih]

lemma strLtChars_trans (a b c : List Char) (h1 : strLtChars a b = true)
    (h2 : strLtChars b c = true) : strLtChars a c = true := by
  induction a generalizing b c with
  | nil =>
    cases b with
    | nil => simp [strLtChars] at h1
    | cons bh bt =>
      cases c with
      | nil => simp [strLtChars] at h2
      | cons ch ct => rfl
  | cons ah as2 ih =>
    cases b with
    | nil => simp [strLtChars] at h1
    | cons bh bt =>
      cases c with
      | nil => simp [strLtChars] at h2
      | cons ch ct =>
        rw [strLtChars_cons] at h1 h2
        by_cases hab : ah.toNat < bh.toNat
        · by_cases hbc : bh.toNat < ch.toNat
          · rw [strLtChars_cons, if_pos (by omega)]
          · by_cases hcb : ch.toNat < bh.toNat
            · rw [if_neg hbc, if_pos hcb] at h2
              exact absurd h2 (by simp)
            · rw [strLtChars_cons, if_pos (by omega)]
        · by_cases hba : bh.toNat < ah.toNat
          · rw [if_neg hab, if_pos hba] at h1
            exact absurd h1 (by simp)
          · rw [if_neg hab, if_neg hba] at h1
            by_cases hbc : bh.toNat < ch.toNat
            · rw [strLtChars_cons, if_pos (by omega)]
            · by_cases hcb : ch.toNat < bh.toNat
              · rw [if_neg hbc, if_pos hcb] at h2
                exact absurd h2 (by simp)
              · rw [if_neg hbc, if_neg hcb] at h2
                rw [strLtChars_cons, if_neg (by omega), if_neg (by omega)]
                exact ih bt ct h1 h2

lemma strLtChars_conn (a b : List Char) (h1 : strLtChars a b = false)
    (h2 : strLtChars b a = false) : a = b := by
  induction a generalizing b with
  | nil =>
    cases b with
    | nil => rfl
    | cons bh bt => simp [strLtChars] at h1
  | cons ah as2 ih =>
    cases b with
    | nil => simp [strLtChars] at h2
    | cons bh bt =>
      rw [strLtChars_cons] at h1 h2
      by_cases hab : ah.toNat < bh.toNat
      · rw [if_pos hab] at h1
        exact absurd h1 (by simp)
      · by_cases hba : bh.toNat < ah.toNat
        · rw [if_pos hba] at h2
          exact absurd h2 (by simp)
        · rw [if_neg hab, if_neg hba] at h1
          rw [if_neg hba, if_neg hab] at h2
          have hn : ah.toNat = bh.toNat := by omega
          have he : ah = bh := Char.ext (UInt32.ext hn)
          rw [he, ih bt h1 h2]

lemma strLe_trans_lemma (a b c : String) (hab : strLe a b) (hbc : strLe b c) :
    strLe a c := by
  unfold strLe strLtB at *
  cases hca : strLtChars c.data a.data with
  | false => rfl
  | true =>
    exfalso
    cases hbc2 : strLtChars b.data c.data with
    | true =>
      have hba := strLtChars_trans _ _ _ hbc2 hca
      rw [hba] at hab
      exact absurd hab (by simp)
    | false =>
      have hdc : b.data = c.data := strLtChars_conn _ _ hbc2 hbc
      rw [← hdc] at hca
      rw [hca] at hab
      exact absurd hab (by simp)

lemma strLe_total_lemma (a b : String) : strLe a b ∨ strLe b a := by
  unfold strLe strLtB
  cases hba : strLtChars b.data a.data with
  | false => exact Or.inl rfl
  | true =>
    cases hab : strLtChars a.data b.data with
    | false => exact Or.inr rfl
    | true =>
      exfalso
      have := strLtChars_trans _ _ _ hab hba
      rw [strLtChars_irrefl] at this
      exact absurd this (by simp)

instance : IsTrans String strLe := ⟨strLe_trans_lemma⟩

instance : IsTotal String strLe := ⟨strLe_total_lemma⟩

/-- Test: the month key is present in the cashflow record with a non-empty
fired-event list. -/
def monthHasFired (cashflow : List (String × CashflowData)) (k : String) :
    Bool :=
  match lookupCashflow cashflow k with
  | some d => !d.events.isEmpty
  | none => false

lemma find?_pred {α : Type} (p : α → Bool) (l : List α) (a : α)
    (h : l.find? p = some a) : p a = true := List.find?_some h

lemma partitionFired_spec (trig : List TriggeredEntry)
    (l : List ScenarioEvent) :
    (partitionFired trig l).1 =
      (l.filter (fun ev => !(trig.any (fun t => t.event.name == ev.name)))).map
        (fun ev => { event := ev, amount := signedAmount ev }) ∧
    (partitionFired trig l).2 =
      l.filterMap (fun ev =>
        (trig.find? (fun t => t.event.name == ev.name)).map
          (fun t => { event := ev, triggerEvent := t.triggerEvent })) := by
  induction l with
  | nil => exact ⟨rfl, rfl⟩
  | cons ev rest ih =>
    obtain ⟨ih1, ih2⟩ := ih
    simp only [partitionFired]
    cases hf : trig.find? (fun t => t.event.name == ev.name) with
    | some t =>
      have hpc := find?_pred (fun t2 : TriggeredEntry =>
        t2.event.name == ev.name) trig t hf
      have ha : trig.any (fun t => t.event.name == ev.name) = true := by
        rw [List.any_eq_true]
        exact ⟨t, List.mem_of_find?_eq_some hf, hpc⟩
      simp [hf, ha, List.filter_cons, List.filterMap_cons, ih1, ih2]
    | none =>
      have ha : trig.any (fun t => t.event.name == ev.name) = false := by
        rw [List.any_eq_false]
        intro x hx
        rw [List.find?_eq_none] at hf
        simp [hf x hx]
      simp [hf, ha, List.filter_cons, List.filterMap_cons, ih1, ih2]

lemma partitionFired_length (trig : List TriggeredEntry)
    (l : List ScenarioEvent) :
    (partitionFired trig l).1.length + (partitionFired trig l).2.length =
      l.length := by
  induction l with
  | nil => rfl
  | cons ev rest ih =>
    simp only [partitionFired]
    cases hf : trig.find? (fun t => t.event.name == ev.name) <;>
      simp <;> omega

lemma buildEventFlow_keys (trig : List TriggeredEntry)
    (result : ScenarioResult) (keys : List String) :
    (buildEventFlow trig result keys).map (fun f => f.monthKey) =
      keys.filter (monthHasFired result.cashflow) := by
  induction keys with
  | nil => rfl
  | cons mk rest ih =>
    simp only [buildEventFlow]
    cases hl : lookupCashflow result.cashflow mk with
    | none =>
      have hp : monthHasFired result.cashflow mk = false := by
        simp [monthHasFired, hl]
      simp [List.filter_cons, hp, ih]
    | some data =>
      cases he : data.events.isEmpty with
      | true =>
        have hp : monthHasFired result.cashflow mk = false := by
          simp [monthHasFired, hl, he]
        simp [List.filter_cons, hp, he, ih]
      | false =>
        have hp : monthHasFired result.cashflow mk = true := by
          simp [monthHasFired, hl, he]
        have hlen := partitionFired_length trig data.events
        have hne : data.events.length > 0 := by
          cases hev : data.events with
          | nil => rw [hev] at he; simp at he
          | cons x xs => simp [hev]
        have hcond : (partitionFired trig data.events).1.length > 0 ∨
            (partitionFired trig data.events).2.length > 0 := by omega
        simp only [he, Bool.false_eq_true, if_false, if_pos hcond]
        simp [List.filter_cons, hp, ih]

lemma buildEventFlow_mem (trig : List TriggeredEntry)
    (result : ScenarioResult) (keys : List String) :
    ∀ f ∈ buildEventFlow trig result keys, ∃ data,
      lookupCashflow result.cashflow f.monthKey = some data ∧
      data.events.isEmpty = false ∧
      f.startingEvents = (partitionFired trig data.events).1 ∧
      f.triggeredBy = (partitionFired trig data.events).2 := by
  induction keys with
  | nil => intro f hf; simp [buildEventFlow] at hf
  | cons mk rest ih =>
    intro f hf
    simp only [buildEventFlow] at hf
    cases hl : lookupCashflow result.cashflow mk with
    | none =>
      simp only [hl] at hf
      exact ih f hf
    | some data =>
      simp only [hl] at hf
      cases he : data.events.isEmpty with
      | true =>
        simp only [he, if_true] at hf
        exact ih f hf
      | false =>
        simp only [he, Bool.false_eq_true, if_false] at hf
        by_cases hcond : (partitionFired trig data.events).1.length > 0 ∨
            (partitionFired trig data.events).2.length > 0
        · rw [if_pos hcond] at hf
          rcases List.mem_cons.mp hf with rfl | hmem
          · exact ⟨data, hl, he, rfl, rfl⟩
          · exact ih f hmem
        · rw [if_neg hcond] at hf
          exact ih f hf

/-- C4: the event flow of `analyzeEventDependencies` has exactly one entry
per month key of the result whose fired list is non-empty (months with no
fired events omitted), in ascending JavaScript string order of month keys,
and each entry partitions its month's fired events into `startingEvents`
(the non-triggered ones, each paired with its signed amount) and
`triggeredBy` (the triggered ones, each carrying the recorded trigger-event
name). -/
theorem analyzeEventDependencies_eventFlow (sc : Scenario)
    (result : ScenarioResult) :
    ((analyzeEventDependencies sc result).eventFlow.map (fun f => f.monthKey)
      = (sortKeys result.cashflow).filter (monthHasFired result.cashflow)) ∧
    List.Sorted strLe
      ((analyzeEventDependencies sc result).eventFlow.map
        (fun f => f.monthKey)) ∧
    ((analyzeEventDependencies sc result).eventFlow.map
        (fun f => f.monthKey)).Perm
      ((result.cashflow.map (fun kv => kv.1)).filter
        (monthHasFired result.cashflow)) ∧
    (∀ f ∈ (analyzeEventDependencies sc result).eventFlow, ∃ data,
      lookupCashflow result.cashflow f.monthKey = some data ∧
      data.events.isEmpty = false ∧
      f.startingEvents =
        (data.events.filter (fun ev =>
          !((analyzeEventDependencies sc result).triggeredEvents.any
            (fun t => t.event.name == ev.name)))).map
          (fun ev => { event := ev, amount := signedAmount ev }) ∧
      f.triggeredBy = data.events.filterMap (fun ev =>
        ((analyzeEventDependencies sc result).triggeredEvents.find?
          (fun t => t.event.name == ev.name)).map
          (fun t => { event := ev, triggerEvent := t.triggerEvent }))) := by
  have hkeys := buildEventFlow_keys (classifyEvents result sc.events).2.2
    result (sortKeys result.cashflow)
  have hflow : (analyzeEventDependencies sc result).eventFlow =
      buildEventFlow (classifyEvents result sc.events).2.2 result
        (sortKeys result.cashflow) := rfl
  have htrig : (analyzeEventDependencies sc result).triggeredEvents =
      (classifyEvents result sc.events).2.2 := rfl
  refine ⟨?_, ?_, ?_, ?_⟩
  · rw [hflow, hkeys]
  · rw [hflow, hkeys]
    have hsorted : List.Sorted strLe (sortKeys result.cashflow) :=
      List.sorted_insertionSort strLe _
    exact List.Pairwise.sublist (List.filter_sublist _) hsorted
  · rw [hflow, hkeys]
    exact List.Perm.filter _ (List.perm_insertionSort strLe _)
  · intro f hf
    rw [hflow] at hf
    obtain ⟨data, hl, he, hs, ht⟩ := buildEventFlow_mem _ result _ f hf
    obtain ⟨p1, p2⟩ := partitionFired_spec
      (classifyEvents result sc.events).2.2 data.events
    refine ⟨data, hl, he, ?_, ?_⟩
    · rw [hs, p1, htrig]
    · rw [ht, p2, htrig]

/-- Concrete event for the C4 witness. -/
def c4Ev : ScenarioEvent := makeEvent "A" 10 EventType.income []

/-- Concrete cashflow record for the C4 witness: one month with a fired
event and one month without, listed out of chronological order. -/
def c4Cashflow : List (String × CashflowData) :=
  [("2025-02", ⟨0, []⟩), ("2025-01", ⟨10, [c4Ev]⟩)]

/-- Concrete analyzer input for the C4 witness. -/
def c4Result : ScenarioResult := ⟨[], c4Cashflow⟩

/-- Witness for C4 at a concrete one-event scenario and two-month result
(one month with a fired event, one without). -/
theorem analyzeEventDependencies_eventFlow_witness :
    ((analyzeEventDependencies (makeScenario "W" [c4Ev]) c4Result).eventFlow.map
        (fun f => f.monthKey) =
      (sortKeys c4Cashflow).filter (monthHasFired c4Cashflow)) ∧
    (∃ f, f ∈ (analyzeEventDependencies (makeScenario "W" [c4Ev])
        c4Result).eventFlow ∧ f.monthKey = "2025-01" ∧ ∃ data,
      lookupCashflow c4Cashflow f.monthKey = some data ∧
      data.events.isEmpty = false) := by
  refine ⟨(analyzeEventDependencies_eventFlow _ _).1, ?_⟩
  have hmem : ({ monthKey := "2025-01",
                 startingEvents := [{ event := c4Ev, amount := 10 }],
                 triggeredBy := [] } : FlowEntry) ∈
      (analyzeEventDependencies (makeScenario "W" [c4Ev])
        c4Result).eventFlow := by decide
  obtain ⟨data, hl, he, -, -⟩ :=
    ((analyzeEventDependencies_eventFlow (makeScenario "W" [c4Ev])
      c4Result).2.2.2) _ hmem
  exact ⟨_, hmem, rfl, data, hl, he⟩

/-! ### Timeline transformer (source: the timeline transformer module) -/

/-- Embeds an occurrence entry of a `TimelineEvent`: month key, month
number, signed amount. -/
structure Occurrence where
  monthKey : String
  month : Int
  amount : ℚ
deriving DecidableEq, Repr

/-- A `TimelineEvent` as held in the per-year event map, before the
parent/child forest is assembled; in the source the `children` array of
such a value is still empty, so it is omitted here and reattached by
`leafNode`. -/
structure PreEvent where
  event : ScenarioEvent
  occurrences : List Occurrence
  triggeredBy : Option String
deriving DecidableEq, Repr

/-- Embeds `TimelineEvent` of the transformer output: an event, its
occurrences, its optional trigger parent name, and its child events. -/
inductive TimelineEvent where
  | mk (event : ScenarioEvent) (occurrences : List Occurrence)
      (triggeredBy : Option String) (children : List TimelineEvent)

/-- The event of a timeline node. -/
def TimelineEvent.event : TimelineEvent → ScenarioEvent
  | .mk e _ _ _ => e

/-- The occurrences of a timeline node. -/
def TimelineEvent.occurrences : TimelineEvent → List Occurrence
  | .mk _ o _ _ => o

/-- The children of a timeline node. -/
def TimelineEvent.children : TimelineEvent → List TimelineEvent
  | .mk _ _ _ c => c

/-- Embeds `TimelineYear` of the transformer output. -/
structure TimelineYear where
  year : Int
  totalIncome : ℚ
  totalExpense : ℚ
  netCashflow : ℚ
  events : List TimelineEvent

/-- Embeds `parseInt` on a digit string (the month-key pieces contain only
digits; `parseInt` reads the leading digit prefix). -/
def jsParseDigits : List Char → Nat → Nat
  | [], acc => acc
  | c :: rest, acc =>
    if 48 ≤ c.toNat ∧ c.toNat ≤ 57 then
      jsParseDigits rest (acc * 10 + (c.toNat - 48))
    else acc

/-- The part of the month key before the dash (`monthKey.split("-")[0]`). -/
def splitDashHead (k : String) : List Char :=
  k.data.takeWhile (fun c => !(c == Char.ofNat 45))

/-- The part of the month key after the first dash
(`monthKey.split("-")[1]`). -/
def splitDashSnd (k : String) : List Char :=
  ((k.data.dropWhile (fun c => !(c == Char.ofNat 45))).drop 1).takeWhile
    (fun c => !(c == Char.ofNat 45))

/-- Embeds `parseInt(yearStr)` on the month key. -/
def parseKeyYear (k : String) : Int := Int.ofNat (jsParseDigits (splitDashHead k) 0)

/-- Embeds `parseInt(monthStr)` on the month key. -/
def parseKeyMonth (k : String) : Int := Int.ofNat (jsParseDigits (splitDashSnd k) 0)

/-- JavaScript `Map.set` on a string-keyed association list: overwrite in
place when present, append when absent. -/
def setA (m : List (String × String)) (k v : String) : List (String × String) :=
  match m with
  | [] => [(k, v)]
  | (k2, v2) :: rest =>
    if k2 == k then (k2, v) :: rest else (k2, v2) :: setA rest k v

/-- Embeds the trigger map built from `triggeredEvents` (event name to
trigger-event name; later entries overwrite earlier ones as for
`Map.set`). -/
def buildTriggerMap (trig : List TriggeredEntry) : List (String × String) :=
  trig.foldl (fun m t => setA m t.event.name t.triggerEvent) []

/-- Lookup in a string-keyed association list (`Map.get`). -/
def lookupStr (m : List (String × String)) (k : String) : Option String :=
  (m.find? (fun kv => kv.1 == k)).map (fun kv => kv.2)

/-- Insert-or-update on the per-year event map: when the key is absent the
initial value is appended (then updated), otherwise the stored value is
updated in place — the `if (!map.has(k)) map.set(k, init)` followed by a
mutation of `map.get(k)` of the source. -/
def upsertEvent (m : List (String × PreEvent)) (k : String) (init : PreEvent)
    (f : PreEvent → PreEvent) : List (String × PreEvent) :=
  match m with
  | [] => [(k, f init)]
  | (k2, v) :: rest =>
    if k2 == k then (k2, f v) :: rest
    else (k2, v) :: upsertEvent rest k init f

/-- Insert-or-update on the year map keyed by year number. -/
def upsertYear (m : List (Int × List (String × PreEvent))) (y : Int)
    (f : List (String × PreEvent) → List (String × PreEvent)) :
    List (Int × List (String × PreEvent)) :=
  match m with
  | [] => [(y, f [])]
  | (y2, em) :: rest =>
    if y2 == y then (y2, f em) :: rest else (y2, em) :: upsertYear rest y f

/-- Embeds the per-month accumulation of `transformToTimelineData`: each
starting event is recorded under its name with `triggerMap.get(name)` as
its trigger parent and its flow amount as the occurrence amount; each
triggered event is recorded with its flow trigger name and its signed
amount recomputed from the event. -/
def processMonth (triggerMap : List (String × String))
    (ym : List (Int × List (String × PreEvent))) (monthData : FlowEntry) :
    List (Int × List (String × PreEvent)) :=
  let year := parseKeyYear monthData.monthKey
  let month := parseKeyMonth monthData.monthKey
  let ym1 := monthData.startingEvents.foldl (fun acc item =>
    upsertYear acc year (fun evMap =>
      upsertEvent evMap item.event.name
        { event := item.event, occurrences := [],
          triggeredBy := lookupStr triggerMap item.event.name }
        (fun p => { p with occurrences := p.occurrences ++
          [{ monthKey := monthData.monthKey, month := month,
             amount := item.amount }] }))) ym
  monthData.triggeredBy.foldl (fun acc item =>
    upsertYear acc year (fun evMap =>
      upsertEvent evMap item.event.name
        { event := item.event, occurrences := [],
          triggeredBy := some item.triggerEvent }
        (fun p => { p with occurrences := p.occurrences ++
          [{ monthKey := monthData.monthKey, month := month,
             amount := signedAmount item.event }] }))) ym1

/-- The year map accumulated over the whole event flow. -/
def buildYearMap (analysis : EventDependencyAnalysis) :
    List (Int × List (String × PreEvent)) :=
  analysis.eventFlow.foldl (processMonth (buildTriggerMap
    analysis.triggeredEvents)) []

/-- Year-ascending comparator used by the `sort((a, b) => a[0] - b[0])` of
the source. -/
def yearLe {α : Type} (a b : Int × α) : Prop := a.1 ≤ b.1

instance {α : Type} (a b : Int × α) : Decidable (yearLe a b) := by
  unfold yearLe; infer_instance

instance {α : Type} : IsTotal (Int × α) yearLe := ⟨fun a b => le_total a.1 b.1⟩

instance {α : Type} : IsTrans (Int × α) yearLe :=
  ⟨fun _ _ _ h1 h2 => le_trans h1 h2⟩

/-- The year map entries sorted by ascending year. -/
def sortYears (m : List (Int × List (String × PreEvent))) :
    List (Int × List (String × PreEvent)) :=
  List.insertionSort yearLe m

/-- A map-stage event as an output node with an empty child list. -/
def leafNode (p : PreEvent) : TimelineEvent :=
  TimelineEvent.mk p.event p.occurrences p.triggeredBy []

/-- Embeds the `childEventsMap` grouping: children grouped by their trigger
parent name, groups in first-encounter order, members appended in event
order. -/
def addToGroup (m : List (String × List PreEvent)) (k : String)
    (p : PreEvent) : List (String × List PreEvent) :=
  match m with
  | [] => [(k, [p])]
  | (k2, l) :: rest =>
    if k2 == k then (k2, l ++ [p]) :: rest else (k2, l) :: addToGroup rest k p

/-- The child groups of a year's events. -/
def childGroups (events : List PreEvent) : List (String × List PreEvent) :=
  events.foldl (fun acc p =>
    match p.triggeredBy with
    | some parent => addToGroup acc parent p
    | none => acc) []

/-- Embeds the orphan-promotion loop: each child group whose parent name
does not (at that point of the iteration) match a node of the running
top-level list is appended wholesale to the top level. -/
def promoteOrphans : List (String × List PreEvent) → List TimelineEvent →
    List TimelineEvent
  | [], acc => acc
  | (pname, kids) :: rest, acc =>
    promoteOrphans rest
      (if acc.any (fun te => te.event.name == pname) then acc
       else acc ++ kids.map leafNode)

/-- The signed occurrence amounts of a year's events, in the iteration
order of the totals loop. -/
def occurrenceAmounts : List PreEvent → List ℚ
  | [] => []
  | p :: rest => p.occurrences.map (fun o => o.amount) ++
      occurrenceAmounts rest

/-- Embeds the totals loop: positive occurrence amounts accumulate into
income, the rest accumulate their absolute value into expense. -/
def totalsAux : List ℚ → ℚ × ℚ → ℚ × ℚ
  | [], acc => acc
  | q :: rest, acc =>
    totalsAux rest (if 0 < q then (acc.1 + q, acc.2) else (acc.1, acc.2 + |q|))

/-- Embeds the per-year assembly of `transformToTimelineData`: attach each
child group to its top-level parent when present, promote the remaining
groups, and compute the totals over all map-stage events of the year. -/
def buildYear (year : Int) (eventsMap : List (String × PreEvent)) :
    TimelineYear :=
  let events := eventsMap.map (fun kv => kv.2)
  let groups := childGroups events
  let top0 := events.filter (fun p => p.triggeredBy.isNone)
  let top1 := top0.map (fun p => TimelineEvent.mk p.event p.occurrences
    p.triggeredBy
    (((groups.find? (fun kv => kv.1 == p.event.name)).map
      (fun kv => kv.2.map leafNode)).getD []))
  let forest := promoteOrphans groups top1
  let tot := totalsAux (occurrenceAmounts events) (0, 0)
  { year := year, totalIncome := tot.1, totalExpense := tot.2,
    netCashflow := tot.1 - tot.2, events := forest }

/-- Embeds `transformToTimelineData` of the timeline transformer. -/
def transformToTimelineData (analysis : EventDependencyAnalysis) :
    List TimelineYear :=
  (sortYears (buildYearMap analysis)).map (fun kv => buildYear kv.1 kv.2)

/-! ### C5: a chained trigger is dropped from the forest (code bug) -/

/-- Event X of the C5 failing input: triggered by an event named W that
never fires in the year under consideration. -/
def c5X : ScenarioEvent :=
  makeEvent "X" 50 EventType.expense [Condition.eventHappened "W"]

/-- Event Y of the C5 failing input: triggered by X. -/
def c5Y : ScenarioEvent :=
  makeEvent "Y" 70 EventType.expense [Condition.eventHappened "X"]

/-- The C5 failing input: one flow month in which the triggered events X
(trigger parent W, absent from the year) and Y (trigger parent X) both
fire. -/
def c5Analysis : EventDependencyAnalysis :=
  { independentEvents := [], conditionalEvents := [],
    triggeredEvents :=
      [{ event := c5X, triggerEvent := "W", firedAt := some "2025-01" },
       { event := c5Y, triggerEvent := "X", firedAt := some "2025-01" }],
    eventFlow := [{ monthKey := "2025-01", startingEvents := [],
                    triggeredBy := [{ event := c5X, triggerEvent := "W" },
                                    { event := c5Y, triggerEvent := "X" }] }] }

/-- C5 (counterexample to the claim; the code contradicts the intended
reshaping): on `c5Analysis` the output year's forest consists of the single
node X with no children — the fired event Y appears nowhere in the forest,
neither attached under its trigger parent X (which is a node of the year)
nor promoted — while the same year's totals still count Y's occurrence
(total expense 120 = 50 + 70) and the year's event flow fired both X and
Y.  The orphan-promotion loop consults the mutated top-level list, so a
child whose parent was itself promoted earlier in the loop is silently
dropped. -/
theorem transformToTimelineData_drops_chained_trigger :
    ((transformToTimelineData c5Analysis).map (fun ty =>
        ty.events.map (fun te =>
          (te.event.name, te.children.map (fun c => c.event.name)))) =
      [[("X", [])]]) ∧
    ((transformToTimelineData c5Analysis).map (fun ty => ty.totalExpense) =
      [120]) ∧
    (c5Analysis.eventFlow.map (fun f =>
        f.triggeredBy.map (fun t => t.event.name)) = [["X", "Y"]]) := by
  refine ⟨by decide, ?_, by decide⟩
  norm_num [c5Analysis, c5X, c5Y, makeEvent, transformToTimelineData,
    buildYearMap, buildTriggerMap, setA, processMonth, sortYears,
    List.insertionSort, List.orderedInsert, buildYear, childGroups,
    addToGroup, promoteOrphans, leafNode, upsertYear, upsertEvent,
    lookupStr, occurrenceAmounts, totalsAux, signedAmount, parseKeyYear,
    parseKeyMonth, splitDashHead, splitDashSnd, jsParseDigits]

/-! ### C6: year totals are the positive/non-positive occurrence sums -/

lemma totalsAux_spec (l : List ℚ) :
    ∀ acc : ℚ × ℚ, totalsAux l acc =
      (acc.1 + (l.filter (fun q => decide (0 < q))).sum,
       acc.2 + ((l.filter (fun q => !decide (0 < q))).map (fun q => |q|)).sum) := by
  induction l with
  | nil => intro acc; simp [totalsAux]
  | cons q rest ih =>
    intro acc
    simp only [totalsAux]
    by_cases h : 0 < q
    · rw [if_pos h, ih]
      simp [List.filter_cons, h]
      ring
    · rw [if_neg h, ih]
      simp [List.filter_cons, h]
      ring

lemma map_abs_filter_sum (l : List ℚ) :
    ((l.filter (fun q => !decide (0 < q))).map (fun q => |q|)).sum =
      -((l.filter (fun q => !decide (0 < q))).sum) := by
  induction l with
  | nil => simp
  | cons q rest ih =>
    by_cases h : 0 < q
    · simp [List.filter_cons, h, ih]
    · simp only [List.filter_cons]
      have hq : |q| = -q := abs_of_nonpos (le_of_not_lt h)
      simp [h, hq, ih]
      ring

lemma filter_pos_sum_split (l : List ℚ) :
    (l.filter (fun q => decide (0 < q))).sum +
      (l.filter (fun q => !decide (0 < q))).sum = l.sum := by
  induction l with
  | nil => simp
  | cons q rest ih =>
    by_cases h : 0 < q <;> simp [List.filter_cons, h] <;> linarith

/-- C6: for every analysis, every produced `TimelineYear` has
`totalIncome` equal to the sum of the positive occurrence amounts recorded
for that year's events, `totalExpense` equal to the sum of the absolute
values of the non-positive occurrence amounts, and `netCashflow` equal to
`totalIncome - totalExpense`, which equals the plain sum of all occurrence
amounts of the year. -/
theorem transformToTimelineData_totals (analysis : EventDependencyAnalysis) :
    ((transformToTimelineData analysis).map (fun ty =>
        (ty.totalIncome, ty.totalExpense, ty.netCashflow)) =
      (sortYears (buildYearMap analysis)).map (fun kv =>
        (((occurrenceAmounts (kv.2.map (fun x => x.2))).filter
            (fun q => decide (0 < q))).sum,
         (((occurrenceAmounts (kv.2.map (fun x => x.2))).filter
            (fun q => !decide (0 < q))).map (fun q => |q|)).sum,
         (occurrenceAmounts (kv.2.map (fun x => x.2))).sum))) ∧
    (∀ ty ∈ transformToTimelineData analysis,
      ty.netCashflow = ty.totalIncome - ty.totalExpense) := by
  constructor
  · unfold transformToTimelineData
    rw [List.map_map]
    apply List.map_congr_left
    intro kv _
    show ((buildYear kv.1 kv.2).totalIncome, (buildYear kv.1 kv.2).totalExpense,
      (buildYear kv.1 kv.2).netCashflow) = _
    have ht := totalsAux_spec
      (occurrenceAmounts (kv.2.map (fun x => x.2))) (0, 0)
    have h1 : (buildYear kv.1 kv.2).totalIncome =
        ((occurrenceAmounts (kv.2.map (fun x => x.2))).filter
          (fun q => decide (0 < q))).sum := by
      show (totalsAux (occurrenceAmounts (kv.2.map (fun x => x.2))) (0, 0)).1 = _
      rw [ht]
      simp
    have h2 : (buildYear kv.1 kv.2).totalExpense =
        (((occurrenceAmounts (kv.2.map (fun x => x.2))).filter
          (fun q => !decide (0 < q))).map (fun q => |q|)).sum := by
      show (totalsAux (occurrenceAmounts (kv.2.map (fun x => x.2))) (0, 0)).2 = _
      rw [ht]
      simp
    have h3 : (buildYear kv.1 kv.2).netCashflow =
        (occurrenceAmounts (kv.2.map (fun x => x.2))).sum := by
      show (totalsAux (occurrenceAmounts (kv.2.map (fun x => x.2))) (0, 0)).1 -
        (totalsAux (occurrenceAmounts (kv.2.map (fun x => x.2))) (0, 0)).2 = _
      rw [ht]
      simp only [Prod.fst, Prod.snd]
      rw [map_abs_filter_sum]
      have := filter_pos_sum_split (occurrenceAmounts (kv.2.map (fun x => x.2)))
      simp only [zero_add]
      linarith
    rw [h1, h2, h3]
  · intro ty hty
    unfold transformToTimelineData at hty
    obtain ⟨kv, -, rfl⟩ := List.mem_map.mp hty
    show (totalsAux (occurrenceAmounts (kv.2.map (fun x => x.2))) (0, 0)).1 -
      (totalsAux (occurrenceAmounts (kv.2.map (fun x => x.2))) (0, 0)).2 =
      (totalsAux (occurrenceAmounts (kv.2.map (fun x => x.2))) (0, 0)).1 -
      (totalsAux (occurrenceAmounts (kv.2.map (fun x => x.2))) (0, 0)).2
    rfl

/-- The single event of the C6 witness analysis. -/
def c6Ev : ScenarioEvent := makeEvent "A" 10 EventType.income []

/-- A one-month, one-event analysis for the C6 witness. -/
def c6Analysis : EventDependencyAnalysis :=
  { independentEvents := [c6Ev],
    conditionalEvents := [], triggeredEvents := [],
    eventFlow := [{ monthKey := "2025-01",
                    startingEvents := [{ event := c6Ev, amount := 10 }],
                    triggeredBy := [] }] }

/-- Witness for C6: on the concrete `c6Analysis` every output year has
`netCashflow = totalIncome - totalExpense`. -/
theorem transformToTimelineData_totals_witness :
    (transformToTimelineData c6Analysis).map (fun ty => ty.netCashflow) =
      (transformToTimelineData c6Analysis).map (fun ty =>
        ty.totalIncome - ty.totalExpense) :=
  List.map_congr_left (fun ty hty =>
    (transformToTimelineData_totals c6Analysis).2 ty hty)

/-! ### C7: dividend generator (source: `dividend-generator.ts`) -/

/-- Embeds `PortfolioAsset` of `types.ts`. -/
structure PortfolioAsset where
  id : String
  name : String
  category_id : String
  initialValue : ℚ
  currency : String
deriving DecidableEq, Repr

/-- Embeds `generateDividendEvents` of `dividend-generator.ts`: skip cash
assets; for the rest compute the monthly dividend
`initialValue * (annualYield / 12)` and emit a monthly recurring income
event named from the asset exactly when the dividend is at least 1. -/
def generateDividendEvents (assets : List PortfolioAsset) (annualYield : ℚ)
    (startDate : LocalDate) (endDate : Option LocalDate) :
    List ScenarioEvent :=
  match assets with
  | [] => []
  | asset :: rest =>
    if asset.category_id == "cash" then
      generateDividendEvents rest annualYield startDate endDate
    else if 1 ≤ asset.initialValue * (annualYield / 12) then
      makeRecurring ("Dividends from " ++ asset.name)
        (asset.initialValue * (annualYield / 12)) EventType.income
        Frequency.monthly startDate endDate ::
        generateDividendEvents rest annualYield startDate endDate
    else generateDividendEvents rest annualYield startDate endDate

/-- C7: the dividend generator emits, in input order, exactly one monthly
recurring income event per non-cash asset whose computed monthly dividend
`initialValue * annualYield / 12` is at least 1, carrying that computed
amount and the name `"Dividends from "` followed by the asset name; cash
assets and assets below the threshold contribute nothing. -/
theorem generateDividendEvents_spec (assets : List PortfolioAsset)
    (annualYield : ℚ) (s : LocalDate) (e : Option LocalDate) :
    (generateDividendEvents assets annualYield s e =
      (assets.filter (fun a => !(a.category_id == "cash") &&
          decide (1 ≤ a.initialValue * (annualYield / 12)))).map
        (fun a => makeRecurring ("Dividends from " ++ a.name)
          (a.initialValue * (annualYield / 12)) EventType.income
          Frequency.monthly s e)) ∧
    (∀ ev ∈ generateDividendEvents assets annualYield s e,
      ev.type = EventType.income ∧ ev.recurrence = Recurrence.monthly s e) := by
  have hmain : generateDividendEvents assets annualYield s e =
      (assets.filter (fun a => !(a.category_id == "cash") &&
          decide (1 ≤ a.initialValue * (annualYield / 12)))).map
        (fun a => makeRecurring ("Dividends from " ++ a.name)
          (a.initialValue * (annualYield / 12)) EventType.income
          Frequency.monthly s e) := by
    induction assets with
    | nil => rfl
    | cons a rest ih =>
      simp only [generateDividendEvents]
      by_cases hc : a.category_id == "cash"
      · simp [List.filter_cons, hc, ih]
      · by_cases hd : 1 ≤ a.initialValue * (annualYield / 12)
        · simp [List.filter_cons, hc, hd, ih]
        · simp [List.filter_cons, hc, hd, ih]
  refine ⟨hmain, ?_⟩
  intro ev hev
  rw [hmain] at hev
  obtain ⟨a, -, rfl⟩ := List.mem_map.mp hev
  exact ⟨rfl, rfl⟩

/-- Concrete asset list for the C7 witness: a stock paying a material
dividend, a cash position, and a stock below the threshold. -/
def c7Assets : List PortfolioAsset :=
  [{ id := "1", name := "ACME", category_id := "stock",
     initialValue := 1200, currency := "USD" },
   { id := "2", name := "Cash", category_id := "cash",
     initialValue := 50000, currency := "USD" },
   { id := "3", name := "Tiny", category_id := "stock",
     initialValue := 100, currency := "USD" }]

/-- Witness for C7: at a 2 percent annual yield, the generator emits the
single ACME dividend event (amount 2), and that member is a monthly
recurring income event. -/
theorem generateDividendEvents_spec_witness :
    (generateDividendEvents c7Assets (1 / 50) (ld 2025 1 1) none).length = 1 ∧
    ((makeRecurring ("Dividends from " ++ "ACME") ((1200 : ℚ) * (1 / 50 / 12))
        EventType.income Frequency.monthly (ld 2025 1 1) none).type =
      EventType.income ∧
     (makeRecurring ("Dividends from " ++ "ACME") ((1200 : ℚ) * (1 / 50 / 12))
        EventType.income Frequency.monthly (ld 2025 1 1) none).recurrence =
      Recurrence.monthly (ld 2025 1 1) none) := by
  have hm := (generateDividendEvents_spec c7Assets (1 / 50)
    (ld 2025 1 1) none).1
  have hfil : c7Assets.filter (fun a => !(a.category_id == "cash") &&
      decide (1 ≤ a.initialValue * ((1 / 50 : ℚ) / 12))) =
      [{ id := "1", name := "ACME", category_id := "stock",
         initialValue := 1200, currency := "USD" }] := by
    norm_num [c7Assets, List.filter_cons]
    decide
  refine ⟨?_, ?_⟩
  · rw [hm, hfil]
    rfl
  · exact (generateDividendEvents_spec c7Assets (1 / 50) (ld 2025 1 1)
      none).2
      (makeRecurring ("Dividends from " ++ "ACME") ((1200 : ℚ) * (1 / 50 / 12))
        EventType.income Frequency.monthly (ld 2025 1 1) none)
      (by rw [hm, hfil]; simp)

/-! ### C10: `getDependentEvents` reaches exactly the transitive dependents

The source recursion (in `scenario-planning-client.tsx`) carries no
visited-set guard; it is embedded with an explicit fuel parameter, and the
claim becomes: under acyclicity of the trigger relation the result is
independent of the fuel once the fuel exceeds the number of triggered
entries (the recursion terminates), and the resulting set is exactly the
set of names transitively reachable through the trigger relation. -/

/-- Embeds `getDependentEvents` of `scenario-planning-client.tsx` with a
fuel parameter standing for the recursion depth: for each triggered entry
whose trigger is the given name, add the entry's event name and recurse
into it, accumulating a set of names. -/
def getDependentEventsF : Nat → List TriggeredEntry → String → Finset String
  | 0, _, _ => ∅
  | n + 1, ts, eventName =>
    ts.foldl (fun dependents t =>
      if t.triggerEvent == eventName then
        (dependents ∪ {t.event.name}) ∪ getDependentEventsF n ts t.event.name
      else dependents) ∅

/-- The trigger relation of an analysis: `a` triggers `b` when some
triggered entry names `a` as its trigger and `b` as its event. -/
def trigEdge (ts : List TriggeredEntry) (a b : String) : Prop :=
  ∃ t ∈ ts, t.triggerEvent = a ∧ t.event.name = b

lemma getDepF_foldl_mem (n : Nat) (ts : List TriggeredEntry) (name x : String) :
    ∀ (l : List TriggeredEntry) (init : Finset String),
      (x ∈ l.foldl (fun dependents t =>
        if t.triggerEvent == name then
          (dependents ∪ {t.event.name}) ∪ getDependentEventsF n ts t.event.name
        else dependents) init) ↔
      (x ∈ init ∨ ∃ t ∈ l, t.triggerEvent = name ∧
        (x = t.event.name ∨ x ∈ getDependentEventsF n ts t.event.name)) := by
  intro l
  induction l with
  | nil => intro init; simp
  | cons t rest ih =>
    intro init
    rw [List.foldl_cons]
    by_cases h : t.triggerEvent == name
    · rw [if_pos h]
      rw [ih]
      have hname : t.triggerEvent = name := by
        exact eq_of_beq h
      simp only [Finset.mem_union, Finset.mem_singleton, List.mem_cons]
      constructor
      · rintro (((hi | hx) | hr) | ⟨t2, ht2, h2⟩)
        · exact Or.inl hi
        · exact Or.inr ⟨t, Or.inl rfl, hname, Or.inl hx⟩
        · exact Or.inr ⟨t, Or.inl rfl, hname, Or.inr hr⟩
        · exact Or.inr ⟨t2, Or.inr ht2, h2⟩
      · rintro (hi | ⟨t2, (rfl | ht2), h2, hcase⟩)
        · exact Or.inl (Or.inl (Or.inl hi))
        · rcases hcase with rfl | hr
          · exact Or.inl (Or.inl (Or.inr rfl))
          · exact Or.inl (Or.inr hr)
        · exact Or.inr ⟨t2, ht2, h2, hcase⟩
    · rw [if_neg h]
      rw [ih]
      have hname : ¬ t.triggerEvent = name := by
        intro he
        exact h (by simp [he])
      simp only [List.mem_cons]
      constructor
      · rintro (hi | ⟨t2, ht2, h2⟩)
        · exact Or.inl hi
        · exact Or.inr ⟨t2, Or.inr ht2, h2⟩
      · rintro (hi | ⟨t2, (rfl | ht2), h2, hcase⟩)
        · exact Or.inl hi
        · exact absurd h2 hname
        · exact Or.inr ⟨t2, ht2, h2, hcase⟩

lemma getDepF_mem (n : Nat) (ts : List TriggeredEntry) (name x : String) :
    x ∈ getDependentEventsF (n + 1) ts name ↔
      ∃ t ∈ ts, t.triggerEvent = name ∧
        (x = t.event.name ∨ x ∈ getDependentEventsF n ts t.event.name) := by
  show x ∈ ts.foldl _ ∅ ↔ _
  rw [getDepF_foldl_mem n ts name x ts ∅]
  simp

lemma getDepF_sound (ts : List TriggeredEntry) :
    ∀ (n : Nat) (name x : String), x ∈ getDependentEventsF n ts name →
      Relation.TransGen (trigEdge ts) name x := by
  intro n
  induction n with
  | zero => intro name x hx; simp [getDependentEventsF] at hx
  | succ n ih =>
    intro name x hx
    rw [getDepF_mem] at hx
    obtain ⟨t, ht, htrig, hcase⟩ := hx
    have hedge : trigEdge ts name t.event.name := ⟨t, ht, htrig, rfl⟩
    rcases hcase with rfl | hrec
    · exact Relation.TransGen.single hedge
    · exact Relation.TransGen.head hedge (ih _ _ hrec)

/-- The finite universe of candidate dependent names: the event names of
the triggered entries. -/
def childNames (ts : List TriggeredEntry) : Finset String :=
  (ts.map (fun t => t.event.name)).toFinset

lemma reach_mem_childNames (ts : List TriggeredEntry) (a x : String)
    (h : Relation.TransGen (trigEdge ts) a x) : x ∈ childNames ts := by
  induction h with
  | single h1 =>
    obtain ⟨t, ht, -, rfl⟩ := h1
    simp [childNames]
    exact ⟨t, ht, rfl⟩
  | tail h1 h2 ih =>
    obtain ⟨t, ht, -, rfl⟩ := h2
    simp [childNames]
    exact ⟨t, ht, rfl⟩

/-- The number of names reachable from `a` through the trigger relation (a
proof-side termination measure, not part of the embedded code). -/
noncomputable def reachCard (ts : List TriggeredEntry) (a : String) : Nat :=
  Finset.card (@Finset.filter _ (fun x => Relation.TransGen (trigEdge ts) a x)
    (Classical.decPred _) (childNames ts))

lemma reachCard_lt (ts : List TriggeredEntry)
    (hacyc : ∀ x, ¬ Relation.TransGen (trigEdge ts) x x)
    (a b : String) (hedge : trigEdge ts a b) :
    reachCard ts b < reachCard ts a := by
  classical
  unfold reachCard
  rw [Finset.filter_congr_decidable, Finset.filter_congr_decidable]
  have hsub : (childNames ts).filter
      (fun x => Relation.TransGen (trigEdge ts) b x) ⊆
      (childNames ts).filter
        (fun x => Relation.TransGen (trigEdge ts) a x) := by
    intro x hx
    rw [Finset.mem_filter] at hx ⊢
    exact ⟨hx.1, Relation.TransGen.head hedge hx.2⟩
  apply Finset.card_lt_card
  rw [Finset.ssubset_iff_of_subset hsub]
  refine ⟨b, ?_, ?_⟩
  · rw [Finset.mem_filter]
    refine ⟨?_, Relation.TransGen.single hedge⟩
    obtain ⟨t, ht, -, rfl⟩ := hedge
    simp [childNames]
    exact ⟨t, ht, rfl⟩
  · rw [Finset.mem_filter]
    rintro ⟨-, hbb⟩
    exact hacyc b hbb

lemma reachCard_le (ts : List TriggeredEntry) (a : String) :
    reachCard ts a ≤ ts.length := by
  classical
  unfold reachCard
  rw [Finset.filter_congr_decidable]
  calc ((childNames ts).filter
        (fun x => Relation.TransGen (trigEdge ts) a x)).card
      ≤ (childNames ts).card := Finset.card_filter_le _ _
    _ ≤ (ts.map (fun t => t.event.name)).length := List.toFinset_card_le _
    _ = ts.length := List.length_map _ _

lemma getDepF_complete (ts : List TriggeredEntry)
    (hacyc : ∀ x, ¬ Relation.TransGen (trigEdge ts) x x) :
    ∀ (fuel : Nat) (a x : String), Relation.TransGen (trigEdge ts) a x →
      reachCard ts a < fuel → x ∈ getDependentEventsF fuel ts a := by
  intro fuel
  induction fuel with
  | zero => intro a x _ h; omega
  | succ n ih =>
    intro a x htg hsz
    obtain ⟨b, hab, hbx⟩ := Relation.TransGen.head'_iff.mp htg
    rcases Relation.reflTransGen_iff_eq_or_transGen.mp hbx with rfl | htg2
    · rw [getDepF_mem]
      obtain ⟨t, ht, h1, h2⟩ := hab
      exact ⟨t, ht, h1, Or.inl h2.symm⟩
    · have hlt := reachCard_lt ts hacyc a b hab
      have hb : x ∈ getDependentEventsF n ts b := ih b x htg2 (by omega)
      rw [getDepF_mem]
      obtain ⟨t, ht, h1, h2⟩ := hab
      exact ⟨t, ht, h1, Or.inr (by rw [h2]; exact hb)⟩

/-- C10: when the trigger relation of the analysis is acyclic, the
(guardless) dependent-events recursion terminates — its fuelled embedding
is independent of the fuel once the fuel exceeds the number of triggered
entries — and it returns exactly the set of event names transitively
reachable from the given name through the trigger relation. -/
theorem getDependentEvents_terminates_and_reaches (ts : List TriggeredEntry)
    (hacyc : ∀ x, ¬ Relation.TransGen (trigEdge ts) x x) :
    (∀ (fuel : Nat), ts.length + 1 ≤ fuel → ∀ name,
      getDependentEventsF fuel ts name =
        getDependentEventsF (ts.length + 1) ts name) ∧
    (∀ name x, x ∈ getDependentEventsF (ts.length + 1) ts name ↔
      Relation.TransGen (trigEdge ts) name x) := by
  have hiff : ∀ (fuel : Nat), ts.length + 1 ≤ fuel → ∀ name x,
      (x ∈ getDependentEventsF fuel ts name ↔
        Relation.TransGen (trigEdge ts) name x) := by
    intro fuel hf name x
    constructor
    · exact getDepF_sound ts fuel name x
    · intro htg
      apply getDepF_complete ts hacyc fuel name x htg
      have := reachCard_le ts name
      omega
  refine ⟨?_, fun name x => hiff _ le_rfl name x⟩
  intro fuel hf name
  apply Finset.ext
  intro x
  rw [hiff fuel hf name x]
  exact (hiff _ le_rfl name x).symm


/-- The single triggered entry of the C10 witness: Y triggered by X. -/
def c10Ts : List TriggeredEntry :=
  [{ event := makeEvent "Y" 1 EventType.income [],
     triggerEvent := "X", firedAt := none }]

lemma c10_edge_char (a b : String) (h : trigEdge c10Ts a b) :
    a = "X" ∧ b = "Y" := by
  obtain ⟨t, ht, h1, h2⟩ := h
  rw [c10Ts, List.mem_singleton] at ht
  subst ht
  exact ⟨h1.symm, h2.symm⟩

lemma c10_trans_char (a b : String)
    (h : Relation.TransGen (trigEdge c10Ts) a b) : a = "X" ∧ b = "Y" := by
  induction h with
  | single h1 => exact c10_edge_char _ _ h1
  | tail h1 h2 ih =>
    obtain ⟨-, hb⟩ := ih
    obtain ⟨hb2, hc⟩ := c10_edge_char _ _ h2
    rw [hb] at hb2
    exact absurd hb2 (by decide)

lemma c10_acyclic (x : String) : ¬ Relation.TransGen (trigEdge c10Ts) x x := by
  intro h
  obtain ⟨h1, h2⟩ := c10_trans_char _ _ h
  rw [h1] at h2
  exact absurd h2 (by decide)

/-- Witness for C10: on the single-edge analysis (Y triggered by X) the
trigger relation is acyclic, and the theorem instance gives the membership
characterization of the dependents of X; the name Y is indeed among them. -/
theorem getDependentEvents_terminates_and_reaches_witness :
    ("Y" ∈ getDependentEventsF (c10Ts.length + 1) c10Ts "X" ↔
      Relation.TransGen (trigEdge c10Ts) "X" "Y") ∧
    "Y" ∈ getDependentEventsF (c10Ts.length + 1) c10Ts "X" := by
  have hiff := (getDependentEvents_terminates_and_reaches c10Ts
    c10_acyclic).2 "X" "Y"
  refine ⟨hiff, hiff.mpr ?_⟩
  apply Relation.TransGen.single
  exact ⟨{ event := makeEvent "Y" 1 EventType.income [],
           triggerEvent := "X", firedAt := none },
    by rw [c10Ts]; exact List.mem_singleton.mpr rfl, rfl, rfl⟩
